import Mathlib

/-!
A shallow embedding of the data-normalization and master-dataset merge
pipeline of `call_dashboard.py` (pandas/streamlit call-center reporting
tool), together with proofs of the specification's claims about it.

Tables (`pandas.DataFrame`) are modelled as a list of column names plus a
list of rows, each row a list of cells aligned with the columns.  A cell
is either missing (`None`/`NaN`), a null date marker (`NaT`), a string, a
number (a rational, standing for the numeric value of an int64/float64
cell), or a pure date.  The per-column conversions of
`clean_and_normalize` (date parsing with coercion to `NaT`, numeric
coercion with zero fill, percent-sign stripping) are modelled cell-wise,
including the `astype(str)` round trip the percentage columns take.
-/

namespace CallDashboard

/-! ### Decimal strings: printing and reading

`pd.to_numeric` applied to a string is modelled by a decimal reader
(optional leading minus, digits, optional fractional part), and Python's
rendering of a numeric value by `astype(str)` is modelled by a decimal
printer that renders the exact value. -/

def digitChar (d : Nat) : Char := Char.ofNat (48 + d)

def charDigit? (c : Char) : Option Nat :=
  if 48 ≤ c.toNat ∧ c.toNat ≤ 57 then some (c.toNat - 48) else none

/-- Big-endian character digits of a natural number (empty for 0). -/
def natDigitsBE (n : Nat) : List Char := ((Nat.digits 10 n).map digitChar).reverse

/-- Decimal rendering of a natural number. -/
def natChars (n : Nat) : List Char := if n = 0 then ['0'] else natDigitsBE n

/-- Reads a digit string left to right, accumulating the value; fails on a
non-digit character. -/
def digitsVal : List Char → Nat → Option Nat
  | [], acc => some acc
  | c :: cs, acc =>
    match charDigit? c with
    | some d => digitsVal cs (10 * acc + d)
    | none => none

/-- Value of a nonempty all-digit character string. -/
def readNat (cs : List Char) : Option Nat :=
  match cs with
  | [] => none
  | _ :: _ => digitsVal cs 0

/-- Splits at the first dot, keeping the rest (which may itself contain
further dots, making the read fail, as float parsing does). -/
def splitDot : List Char → List Char × Option (List Char)
  | [] => ([], none)
  | c :: cs =>
    if c = '.' then ([], some cs)
    else
      let p := splitDot cs
      (c :: p.1, p.2)

/-- A signed decimal numeral `±n / 10^k`. -/
structure DecNum where
  sgn : Bool
  n : Nat
  k : Nat
deriving DecidableEq

def DecNum.toRat (d : DecNum) : Rat :=
  mkRat (if d.sgn then -(d.n : Int) else (d.n : Int)) (10 ^ d.k)

/-- Reads an unsigned decimal numeral: digits with an optional fractional
part. -/
def readUDec (cs : List Char) : Option (Nat × Nat) :=
  match splitDot cs with
  | (intCs, none) => (readNat intCs).map (fun n => (n, 0))
  | (intCs, some fracCs) =>
    match readNat intCs, readNat fracCs with
    | some a, some b => some (a * 10 ^ fracCs.length + b, fracCs.length)
    | _, _ => none

/-- Reads a signed decimal numeral. -/
def readDec (cs : List Char) : Option DecNum :=
  match cs with
  | [] => none
  | c :: rest =>
    if c = '-' then (readUDec rest).map (fun p => ⟨true, p.1, p.2⟩)
    else (readUDec (c :: rest)).map (fun p => ⟨false, p.1, p.2⟩)

/-- Model of `pd.to_numeric` on a single string cell: the numeric value,
or `none` (to be coerced) when the string is not a decimal numeral. -/
def parseNumeric (s : String) : Option Rat := (readDec s.data).map DecNum.toRat

/-- Fractional digits of `m` padded with leading zeros to width `k`. -/
def fracChars (k m : Nat) : List Char :=
  List.replicate (k - (Nat.digits 10 m).length) '0' ++ natDigitsBE m

/-- Renders `n / 10^k` as an unsigned decimal numeral. -/
def udecChars (n k : Nat) : List Char :=
  if k = 0 then natChars n
  else natChars (n / 10 ^ k) ++ '.' :: fracChars k (n % 10 ^ k)

def DecNum.chars (d : DecNum) : List Char :=
  (if d.sgn then ['-'] else []) ++ udecChars d.n d.k

/-- Writes a rational as a signed decimal numeral, when its denominator
allows an exact decimal rendering. -/
def ratToDec (q : Rat) : Option DecNum :=
  if 10 ^ q.den % q.den = 0 then
    some ⟨decide (q.num < 0), q.num.natAbs * (10 ^ q.den / q.den), q.den⟩
  else none

/-- Model of Python's string rendering of a numeric cell value, as
performed by `astype(str)`. -/
def numToStr (q : Rat) : String :=
  match ratToDec q with
  | some d => ⟨d.chars⟩
  | none => "?"

/-! ### Cells -/

/-- One cell of a table: missing value (`None`/`NaN`), null date marker
(`NaT`), string, numeric value, or pure date. -/
inductive Cell where
  | null
  | natT
  | str (s : String)
  | num (q : Rat)
  | date (y m d : Nat)
deriving DecidableEq

/-- Two-digit zero-padded rendering, for date components. -/
def pad2 (n : Nat) : List Char := if n < 10 then '0' :: natChars n else natChars n

/-- Model of `astype(str)` on a single cell. -/
def cellToStr : Cell → String
  | Cell.null => "nan"
  | Cell.natT => "NaT"
  | Cell.str s => s
  | Cell.num q => numToStr q
  | Cell.date y m d => ⟨natChars y ++ '-' :: pad2 m ++ '-' :: pad2 d⟩

/-- Splits a character list on a separator. -/
def splitChar (sep : Char) : List Char → List (List Char)
  | [] => [[]]
  | c :: cs =>
    match splitChar sep cs with
    | [] => [[c]]
    | g :: gs => if c = sep then [] :: g :: gs else (c :: g) :: gs

/-- Model of `pd.to_datetime` on a string cell: an ISO `Y-M-D` date, with
any time-of-day suffix after a space dropped (`.dt.date` keeps only the
date part); out-of-range or malformed input fails. -/
def parseDateStr (s : String) : Option (Nat × Nat × Nat) :=
  let core := s.data.takeWhile (fun c => c != ' ')
  match splitChar '-' core with
  | [ys, ms, ds] =>
    match readNat ys, readNat ms, readNat ds with
    | some y, some m, some d =>
      if 1 ≤ m ∧ m ≤ 12 ∧ 1 ≤ d ∧ d ≤ 31 then some (y, m, d) else none
    | _, _, _ => none
  | _ => none

/-- Model of `pd.to_datetime(...).dt.date` on one cell: date cells pass
through, strings are parsed, everything else fails (and is coerced). -/
def parseDate : Cell → Option (Nat × Nat × Nat)
  | Cell.date y m d => some (y, m, d)
  | Cell.str s => parseDateStr s
  | _ => none

/-- Date-column conversion: parse, with unparseable cells becoming the
null date marker `NaT` (the net per-cell effect of the try/except around
`pd.to_datetime` with `errors="coerce"` as the fallback). -/
def dateConv (c : Cell) : Cell :=
  match parseDate c with
  | some (y, m, d) => Cell.date y m d
  | none => Cell.natT

/-- Model of `pd.to_numeric(..., errors="coerce")` on one cell. -/
def toNumeric : Cell → Option Rat
  | Cell.num q => some q
  | Cell.str s => parseNumeric s
  | _ => none

/-- Numeric-column conversion: `pd.to_numeric(col, errors="coerce").fillna(0)`. -/
def numConv (c : Cell) : Cell :=
  match toNumeric c with
  | some q => Cell.num q
  | none => Cell.num 0

/-- The cell rendered by `astype(str)` with every percent sign removed,
as `.str.replace("%", "")` does. -/
def pctStr (c : Cell) : String := ⟨(cellToStr c).data.filter (fun ch => ch != '%')⟩

/-- Percentage-column conversion:
`col.astype(str).str.replace("%", "").replace("nan", "")` followed by
`pd.to_numeric(..., errors="coerce").fillna(0)`.  Note `str.replace`
removes every occurrence of the percent sign. -/
def pctConv (c : Cell) : Cell :=
  match parseNumeric (if pctStr c = "nan" then "" else pctStr c) with
  | some q => Cell.num q
  | none => Cell.num 0

/-! ### The schema and the normalizer -/

/-- The fixed schema, from `REQUIRED_COLUMNS` in the source. -/
def REQUIRED_COLUMNS : List String :=
  ["Date", "Employee Name", "Overall Calls", "Completed Calls", "Completed %",
   "Incoming Calls", "Incoming completed call", "Incoming %", "Outbound Calls",
   "Missed Calls", "Login Hours", "Cons Count", "Audit Count", "Fatal Count",
   "Total Points", "Achieve Points", "Productivity%"]

/-- The columns the source's `numeric_cols` list coerces to numeric. -/
def numeric_cols : List String :=
  ["Overall Calls", "Completed Calls", "Missed Calls", "Login Hours",
   "Cons Count", "Audit Count", "Fatal Count", "Total Points",
   "Achieve Points", "Productivity%"]

/-- The two percentage columns stripped of percent signs by the source. -/
def pct_cols : List String := ["Completed %", "Incoming %"]

/-- The conversion `clean_and_normalize` applies to a cell, by the name of
its column.  The three column groups are disjoint, so the sequential
column-wise assignments of the source are equivalent to this single
per-cell dispatch. -/
def convertCell (col : String) (c : Cell) : Cell :=
  if col = "Date" then dateConv c
  else if col ∈ numeric_cols then numConv c
  else if col ∈ pct_cols then pctConv c
  else c

/-- A table: ordered column names and rows of cells aligned with them. -/
structure DF where
  cols : List String
  rows : List (List Cell)
deriving DecidableEq

/-- Rectangularity: every row has one cell per column.  Every real
`pandas.DataFrame` satisfies this. -/
def Rect (df : DF) : Prop := ∀ r ∈ df.rows, r.length = df.cols.length

instance (df : DF) : Decidable (Rect df) := by
  unfold Rect
  infer_instance

/-- Cell of a row under the first column of the given name (`df[c]`
selects the first matching column); `Cell.null` when absent. -/
def getCell : List String → List Cell → String → Cell
  | [], _, _ => Cell.null
  | _ :: _, [], _ => Cell.null
  | c :: cols, x :: xs, c0 => if c = c0 then x else getCell cols xs c0

/-- Schema columns absent from the input, in schema order — the columns
the loop `for col in REQUIRED_COLUMNS: if col not in df.columns` adds. -/
def missingCols (cols : List String) : List String :=
  REQUIRED_COLUMNS.filter (fun c => !(cols.contains c))

/-- The fill loop: each absent schema column is appended, holding `None`. -/
def addMissing (df : DF) : DF :=
  ⟨df.cols ++ missingCols df.cols,
   df.rows.map (fun r => r ++ List.replicate (missingCols df.cols).length Cell.null)⟩

/-- The per-column conversions, applied to every cell by column name. -/
def applyConvs (df : DF) : DF :=
  ⟨df.cols, df.rows.map (fun r => List.zipWith convertCell df.cols r)⟩

/-- Column selection `df[cs]`. -/
def selectCols (df : DF) (cs : List String) : DF :=
  ⟨cs, df.rows.map (fun r => cs.map (fun c => getCell df.cols r c))⟩

/-- The state of `clean_and_normalize`'s argument after the call: the
function mutates the frame it is given (adding the missing schema columns
and converting the date, numeric and percentage columns in place) before
returning a column selection of it. -/
def clean_and_normalize_mut (df : DF) : DF := applyConvs (addMissing df)

/-- `clean_and_normalize`: fill missing schema columns, convert by column
type, return exactly the schema columns in schema order. -/
def clean_and_normalize (df : DF) : DF :=
  selectCols (clean_and_normalize_mut df) REQUIRED_COLUMNS

/-- The normalized row a (rectangular) input row becomes: one converted
cell per schema column. -/
def normRow (cols : List String) (r : List Cell) : List Cell :=
  REQUIRED_COLUMNS.map (fun c => convertCell c (getCell cols r c))

/-- The row a (rectangular) input row becomes inside the mutated input
frame: missing-column cells appended as null, then every cell converted by
its column's type. -/
def mutRow (cols : List String) (r : List Cell) : List Cell :=
  List.zipWith convertCell (cols ++ missingCols cols)
    (r ++ List.replicate (missingCols cols).length Cell.null)

/-! ### The master store -/

/-- `drop_duplicates(subset=REQUIRED_COLUMNS, keep="last")` on rows of
schema-column cells: a row is kept exactly when no equal row occurs later,
so the kept occurrence of each duplicate set is the last one, in place. -/
def keepLast {α : Type} [DecidableEq α] : List α → List α
  | [] => []
  | x :: xs => if x ∈ xs then keepLast xs else x :: keepLast xs

/-- `append_to_master`, over the rows of the persisted master table: the
new table is normalized; when the master is empty the normalized rows are
returned (and persisted) as they are, otherwise the concatenation
(master first) is deduplicated keeping last occurrences. -/
def append_to_master (master : List (List Cell)) (newDf : DF) : List (List Cell) :=
  if master = [] then (clean_and_normalize newDf).rows
  else keepLast (master ++ (clean_and_normalize newDf).rows)

/-- The three states the persisted master file can be in when read. -/
inductive MasterFile where
  | absent
  | unreadable
  | stored (df : DF)

/-- The empty canonical table `pd.DataFrame(columns=REQUIRED_COLUMNS)`. -/
def empty_master : DF := ⟨REQUIRED_COLUMNS, []⟩

/-- `read_master`: the parsed file content as is (no normalization), or
the empty canonical table when the file is absent or cannot be parsed
(the parse failure is reported, not raised). -/
def read_master : MasterFile → DF
  | MasterFile.absent => empty_master
  | MasterFile.unreadable => empty_master
  | MasterFile.stored df => df

/-! ### Manual entry -/

/-- The manual-entry row mask: employee name and date both equal the
selection. -/
def maskRow (cols : List String) (emp : String) (y m d : Nat) (r : List Cell) : Bool :=
  decide (getCell cols r "Employee Name" = Cell.str emp) &&
  decide (getCell cols r "Date" = Cell.date y m d)

/-- The three `.loc` assignments of the manual-entry form, on one row. -/
def setCounts (cols : List String) (cons audit fatal : Nat) (r : List Cell) : List Cell :=
  List.zipWith
    (fun c x =>
      if c = "Cons Count" then Cell.num (cons : Rat)
      else if c = "Audit Count" then Cell.num (audit : Rat)
      else if c = "Fatal Count" then Cell.num (fatal : Rat)
      else x)
    cols r

/-- The manual-entry update: overwrite the three quality counters on every
row matching the employee+date selection, leaving all other rows and all
other columns unchanged. -/
def manual_update (master : DF) (emp : String) (y m d cons audit fatal : Nat) : DF :=
  ⟨master.cols,
   master.rows.map (fun r =>
     if maskRow master.cols emp y m d r then setCounts master.cols cons audit fatal r
     else r)⟩

/-- Modelled from the spec: a percentage conversion that strips only a
single trailing percent sign ("strip a trailing `%` character if
present"), for comparison against the source's remove-all behaviour. -/
def specTrailingPctConv (c : Cell) : Cell :=
  let s0 := cellToStr c
  let s1 : String := if s0.data.getLast? = some '%' then ⟨s0.data.dropLast⟩ else s0
  let s2 : String := if s1 = "nan" then "" else s1
  match parseNumeric s2 with
  | some q => Cell.num q
  | none => Cell.num 0

/-! ### Round-trip lemmas for the decimal reader and printer -/

theorem charDigit_digitChar (d : Nat) (h : d < 10) : charDigit? (digitChar d) = some d := by
  interval_cases d <;> decide

theorem digitChar_range (d : Nat) (h : d < 10) :
    48 ≤ (digitChar d).toNat ∧ (digitChar d).toNat ≤ 57 := by
  interval_cases d <;> decide

theorem digitsVal_map (L : List Nat) (hL : ∀ d ∈ L, d < 10) (acc : Nat) :
    digitsVal (L.map digitChar) acc = some (acc * 10 ^ L.length + Nat.ofDigits 10 L.reverse) := by
  induction L generalizing acc with
  | nil => simp [digitsVal, Nat.ofDigits_nil]
  | cons d L ih =>
    have hd : d < 10 := hL d (by simp)
    rw [List.map_cons]
    show (match charDigit? (digitChar d) with
      | some d0 => digitsVal (L.map digitChar) (10 * acc + d0)
      | none => none) = _
    rw [charDigit_digitChar d hd]
    show digitsVal (L.map digitChar) (10 * acc + d) = _
    rw [ih (fun x hx => hL x (by simp [hx])) (10 * acc + d)]
    congr 1
    rw [List.reverse_cons, Nat.ofDigits_append, Nat.ofDigits_singleton]
    simp [List.length_cons, pow_succ]
    ring

theorem readNat_eq (cs : List Char) (h : cs ≠ []) : readNat cs = digitsVal cs 0 := by
  cases cs with
  | nil => exact absurd rfl h
  | cons c cs => rfl

theorem digits_len_le (m k : Nat) (h : m < 10 ^ k) : (Nat.digits 10 m).length ≤ k := by
  rcases Nat.eq_zero_or_pos m with hm | hm
  · simp [hm]
  · rw [Nat.digits_len 10 m (by norm_num) (Nat.pos_iff_ne_zero.mp hm)]
    have := (Nat.lt_pow_iff_log_lt (by norm_num : 1 < 10) (Nat.pos_iff_ne_zero.mp hm)).mp h
    omega

theorem natDigitsBE_eq_map (n : Nat) :
    natDigitsBE n = ((Nat.digits 10 n).reverse).map digitChar := by
  rw [natDigitsBE, List.map_reverse]

theorem natChars_ne_nil (n : Nat) : natChars n ≠ [] := by
  unfold natChars
  split
  · simp
  · rename_i h
    rw [natDigitsBE_eq_map]
    simp [Nat.digits_ne_nil_iff_ne_zero.mpr h]

theorem readNat_natChars (n : Nat) : readNat (natChars n) = some n := by
  rw [readNat_eq _ (natChars_ne_nil n)]
  by_cases h : n = 0
  · subst h; decide
  · have hlt : ∀ d ∈ (Nat.digits 10 n).reverse, d < 10 :=
      fun d hd => Nat.digits_lt_base (by norm_num) (List.mem_reverse.mp hd)
    rw [natChars, if_neg h, natDigitsBE_eq_map, digitsVal_map _ hlt 0,
      List.reverse_reverse, Nat.ofDigits_digits]
    simp

theorem ofDigits_replicate_zero (z : Nat) : Nat.ofDigits 10 (List.replicate z 0) = 0 := by
  induction z with
  | zero => rfl
  | succ z ih => rw [List.replicate_succ, Nat.ofDigits_cons, ih]

theorem fracChars_eq_map (k m : Nat) :
    fracChars k m =
      (List.replicate (k - (Nat.digits 10 m).length) 0 ++ (Nat.digits 10 m).reverse).map
        digitChar := by
  rw [fracChars, List.map_append, natDigitsBE_eq_map, List.map_replicate]
  rfl

theorem fracChars_length (k m : Nat) (hm : m < 10 ^ k) : (fracChars k m).length = k := by
  rw [fracChars_eq_map, List.length_map, List.length_append, List.length_replicate,
    List.length_reverse]
  have := digits_len_le m k hm
  omega

theorem readNat_fracChars (k m : Nat) (hm : m < 10 ^ k) (hk : k ≠ 0) :
    readNat (fracChars k m) = some m := by
  have hne : fracChars k m ≠ [] := by
    intro he
    have := fracChars_length k m hm
    rw [he] at this
    exact hk this.symm
  rw [readNat_eq _ hne, fracChars_eq_map]
  rw [digitsVal_map _ ?hd 0]
  case hd =>
    intro d hd
    rcases List.mem_append.mp hd with h1 | h1
    · have := List.eq_of_mem_replicate h1
      omega
    · exact Nat.digits_lt_base (by norm_num) (List.mem_reverse.mp h1)
  rw [List.reverse_append, List.reverse_reverse, List.reverse_replicate,
    Nat.ofDigits_append, ofDigits_replicate_zero, Nat.ofDigits_digits]
  simp

theorem splitDot_no_dot (cs : List Char) (h : ∀ c ∈ cs, c ≠ '.') :
    splitDot cs = (cs, none) := by
  induction cs with
  | nil => rfl
  | cons c cs ih =>
    rw [splitDot, if_neg (h c (by simp)), ih (fun x hx => h x (by simp [hx]))]

theorem splitDot_append (cs₁ cs₂ : List Char) (h : ∀ c ∈ cs₁, c ≠ '.') :
    splitDot (cs₁ ++ '.' :: cs₂) = (cs₁, some cs₂) := by
  induction cs₁ with
  | nil => simp [splitDot]
  | cons c cs ih =>
    rw [List.cons_append, splitDot, if_neg (h c (by simp)),
      ih (fun x hx => h x (by simp [hx]))]

theorem natChars_digit (n : Nat) : ∀ c ∈ natChars n, 48 ≤ c.toNat ∧ c.toNat ≤ 57 := by
  intro c hc
  unfold natChars at hc
  split at hc
  · simp at hc
    subst hc; decide
  · rw [natDigitsBE_eq_map] at hc
    obtain ⟨d, hd, rfl⟩ := List.mem_map.mp hc
    exact digitChar_range d (Nat.digits_lt_base (by norm_num) (List.mem_reverse.mp hd))

theorem fracChars_digit (k m : Nat) : ∀ c ∈ fracChars k m, 48 ≤ c.toNat ∧ c.toNat ≤ 57 := by
  intro c hc
  rw [fracChars_eq_map] at hc
  obtain ⟨d, hd, rfl⟩ := List.mem_map.mp hc
  rcases List.mem_append.mp hd with h1 | h1
  · have := List.eq_of_mem_replicate h1
    subst this; decide
  · exact digitChar_range d (Nat.digits_lt_base (by norm_num) (List.mem_reverse.mp h1))

theorem udecChars_mem (n k : Nat) :
    ∀ c ∈ udecChars n k, c = '.' ∨ (48 ≤ c.toNat ∧ c.toNat ≤ 57) := by
  intro c hc
  unfold udecChars at hc
  split at hc
  · exact Or.inr (natChars_digit n c hc)
  · rcases List.mem_append.mp hc with h1 | h1
    · exact Or.inr (natChars_digit _ c h1)
    · rcases List.mem_cons.mp h1 with h2 | h2
      · exact Or.inl h2
      · exact Or.inr (fracChars_digit _ _ c h2)

theorem decNum_chars_mem (d : DecNum) :
    ∀ c ∈ d.chars, c = '-' ∨ c = '.' ∨ (48 ≤ c.toNat ∧ c.toNat ≤ 57) := by
  intro c hc
  rw [DecNum.chars] at hc
  rcases List.mem_append.mp hc with h1 | h1
  · left
    split at h1 <;> simp_all
  · rcases udecChars_mem d.n d.k c h1 with h2 | h2
    · exact Or.inr (Or.inl h2)
    · exact Or.inr (Or.inr h2)

theorem readUDec_udecChars (n k : Nat) : readUDec (udecChars n k) = some (n, k) := by
  by_cases hk : k = 0
  · subst hk
    rw [udecChars, if_pos rfl, readUDec,
      splitDot_no_dot _ (fun c hc => by
        have h2 := natChars_digit n c hc
        intro he; subst he; revert h2; decide)]
    show Option.map (fun m => (m, 0)) (readNat (natChars n)) = some (n, 0)
    rw [readNat_natChars]
    rfl
  · have hmlt : n % 10 ^ k < 10 ^ k := Nat.mod_lt _ (Nat.pos_pow_of_pos k (by norm_num))
    rw [udecChars, if_neg hk, readUDec,
      splitDot_append _ _ (fun c hc => by
        have h2 := natChars_digit _ c hc
        intro he; subst he; revert h2; decide)]
    show (match readNat (natChars (n / 10 ^ k)), readNat (fracChars k (n % 10 ^ k)) with
      | some a, some b => some (a * 10 ^ (fracChars k (n % 10 ^ k)).length + b,
          (fracChars k (n % 10 ^ k)).length)
      | _, _ => none) = some (n, k)
    rw [readNat_natChars, readNat_fracChars k _ hmlt hk]
    show some (n / 10 ^ k * 10 ^ (fracChars k (n % 10 ^ k)).length + n % 10 ^ k,
      (fracChars k (n % 10 ^ k)).length) = some (n, k)
    rw [fracChars_length k _ hmlt, Nat.div_add_mod' n (10 ^ k)]

theorem udecChars_head (n k : Nat) :
    ∃ c cs, udecChars n k = c :: cs ∧ 48 ≤ c.toNat ∧ c.toNat ≤ 57 := by
  by_cases hk : k = 0
  · cases he : natChars n with
    | nil => exact absurd he (natChars_ne_nil n)
    | cons c cs =>
      refine ⟨c, cs, ?_, natChars_digit n c (by rw [he]; simp)⟩
      rw [udecChars, if_pos hk, he]
  · cases he : natChars (n / 10 ^ k) with
    | nil => exact absurd he (natChars_ne_nil _)
    | cons c cs =>
      refine ⟨c, cs ++ '.' :: fracChars k (n % 10 ^ k), ?_,
        natChars_digit _ c (by rw [he]; simp)⟩
      rw [udecChars, if_neg hk, he]
      rfl

theorem readDec_chars (d : DecNum) : readDec d.chars = some d := by
  obtain ⟨c, cs, hcs, hc1, hc2⟩ := udecChars_head d.n d.k
  cases hs : d.sgn with
  | true =>
    have : d.chars = '-' :: udecChars d.n d.k := by rw [DecNum.chars, hs]; rfl
    rw [this, readDec, if_pos rfl, readUDec_udecChars]
    simp [Option.map_some]
    cases d
    simp_all
  | false =>
    have : d.chars = udecChars d.n d.k := by rw [DecNum.chars, hs]; rfl
    rw [this, hcs, readDec, if_neg (by intro he; subst he; revert hc1; decide), ← hcs,
      readUDec_udecChars]
    simp [Option.map_some]
    cases d
    simp_all

/-! ### Exact decimal rendering of rationals -/

theorem decNum_toRat_den_dvd (d : DecNum) : d.toRat.den ∣ 10 ^ d.k := by
  have h := Rat.den_dvd (if d.sgn then -(d.n : Int) else (d.n : Int)) ((10 ^ d.k : Nat) : Int)
  rw [← Rat.mkRat_eq_divInt] at h
  have h2 : ((d.toRat.den : Nat) : Int) ∣ ((10 ^ d.k : Nat) : Int) := by
    simpa [DecNum.toRat] using h
  exact_mod_cast h2

/-- A denominator dividing some power of ten also divides `10 ^ den`
itself, making the printer's guard succeed. -/
theorem den_dvd_ten_pow_den (q : Rat) (K : Nat) (h : q.den ∣ 10 ^ K) :
    10 ^ q.den % q.den = 0 := by
  have h10 : (10 : Nat) ^ K = 2 ^ K * 5 ^ K := by rw [← Nat.mul_pow]
  rw [h10] at h
  obtain ⟨y, z, hy, hz, hyz⟩ := Nat.dvd_mul.mp h
  obtain ⟨i, hiK, rfl⟩ := (Nat.dvd_prime_pow Nat.prime_two).mp hy
  obtain ⟨j, hjK, rfl⟩ := (Nat.dvd_prime_pow (by norm_num : Nat.Prime 5)).mp hz
  have hd2 : 2 ^ i ∣ q.den := ⟨5 ^ j, hyz.symm⟩
  have hd5 : 5 ^ j ∣ q.den := ⟨2 ^ i, by rw [← hyz]; ring⟩
  have hi : i ≤ q.den :=
    le_trans (le_of_lt (Nat.lt_two_pow i)) (Nat.le_of_dvd q.den_pos hd2)
  have hj : j ≤ q.den := by
    have h1 : j < 5 ^ j :=
      lt_of_lt_of_le (Nat.lt_two_pow j) (Nat.pow_le_pow_left (by norm_num) j)
    exact le_trans (le_of_lt h1) (Nat.le_of_dvd q.den_pos hd5)
  have hdvd : q.den ∣ 10 ^ q.den := by
    have h1 : (2 : Nat) ^ i * 5 ^ j ∣ 2 ^ q.den * 5 ^ q.den :=
      mul_dvd_mul (pow_dvd_pow 2 hi) (pow_dvd_pow 5 hj)
    rw [hyz] at h1
    rwa [show (10 : Nat) ^ q.den = 2 ^ q.den * 5 ^ q.den by rw [← Nat.mul_pow]]
  exact Nat.mod_eq_zero_of_dvd hdvd

theorem ratToDec_spec (q : Rat) (h : 10 ^ q.den % q.den = 0) :
    ∃ d, ratToDec q = some d ∧ d.toRat = q := by
  refine ⟨⟨decide (q.num < 0), q.num.natAbs * (10 ^ q.den / q.den), q.den⟩, ?_, ?_⟩
  · rw [ratToDec, if_pos h]
  · have hdvd : q.den ∣ 10 ^ q.den := Nat.dvd_of_mod_eq_zero h
    show mkRat (if (decide (q.num < 0) : Bool)
        then -((q.num.natAbs * (10 ^ q.den / q.den) : Nat) : Int)
        else ((q.num.natAbs * (10 ^ q.den / q.den) : Nat) : Int)) (10 ^ q.den) = q
    generalize hgen : 10 ^ q.den / q.den = t
    have htden : q.den * t = 10 ^ q.den := by
      rw [← hgen]
      exact Nat.mul_div_cancel' hdvd
    have ht0 : t ≠ 0 := by
      intro h0
      rw [h0, Nat.mul_zero] at htden
      exact absurd htden.symm (Nat.pos_iff_ne_zero.mp (Nat.pos_pow_of_pos q.den (by norm_num)))
    have hnum : (if (decide (q.num < 0) : Bool)
          then -((q.num.natAbs * t : Nat) : Int)
          else ((q.num.natAbs * t : Nat) : Int)) = q.num * (t : Int) := by
      by_cases hq : q.num < 0
      · rw [if_pos (by simpa using hq)]
        push_cast [Int.natCast_natAbs]
        rw [abs_of_neg hq]
        ring
      · rw [if_neg (by simpa using hq)]
        push_cast [Int.natCast_natAbs]
        rw [abs_of_nonneg (le_of_not_lt hq)]
    rw [hnum, ← htden, Rat.mkRat_eq_divInt, Rat.divInt_eq_div]
    push_cast
    rw [mul_div_mul_right _ _ (by exact_mod_cast ht0 : ((t : Nat) : Rat) ≠ 0)]
    exact Rat.num_div_den q

theorem parseNumeric_numToStr (q : Rat) (h : 10 ^ q.den % q.den = 0) :
    parseNumeric (numToStr q) = some q := by
  obtain ⟨d, hd, htr⟩ := ratToDec_spec q h
  rw [numToStr, hd]
  show (readDec d.chars).map DecNum.toRat = some q
  rw [readDec_chars d]
  simp [htr]

theorem numToStr_chars (q : Rat) (h : 10 ^ q.den % q.den = 0) :
    ∀ c ∈ (numToStr q).data, c = '-' ∨ c = '.' ∨ (48 ≤ c.toNat ∧ c.toNat ≤ 57) := by
  obtain ⟨d, hd, htr⟩ := ratToDec_spec q h
  rw [numToStr, hd]
  exact decNum_chars_mem d

theorem numToStr_no_pct (q : Rat) (h : 10 ^ q.den % q.den = 0) :
    (numToStr q).data.filter (fun ch => ch != '%') = (numToStr q).data := by
  apply List.filter_eq_self.mpr
  intro c hc
  have hne : c ≠ '%' := by
    rcases numToStr_chars q h c hc with h1 | h1 | h1
    · subst h1; decide
    · subst h1; decide
    · intro he; subst he; revert h1; decide
  simpa [bne_iff_ne] using hne

theorem numToStr_ne_nan (q : Rat) (h : 10 ^ q.den % q.den = 0) : numToStr q ≠ "nan" := by
  intro he
  have ha : 'a' ∈ (numToStr q).data := by rw [he]; decide
  rcases numToStr_chars q h 'a' ha with h1 | h1 | h1
  · exact absurd h1 (by decide)
  · exact absurd h1 (by decide)
  · exact absurd h1 (by decide)

/-! ### Idempotence of the three cell conversions -/

theorem pctConv_num_fix (q : Rat) (h : 10 ^ q.den % q.den = 0) :
    pctConv (Cell.num q) = Cell.num q := by
  have h1 : pctStr (Cell.num q) = numToStr q := by
    show (⟨(numToStr q).data.filter (fun ch => ch != '%')⟩ : String) = numToStr q
    rw [numToStr_no_pct q h]
  rw [pctConv, h1, if_neg (numToStr_ne_nan q h), parseNumeric_numToStr q h]

theorem pctConv_output (c : Cell) :
    ∃ q, pctConv c = Cell.num q ∧ 10 ^ q.den % q.den = 0 := by
  rw [pctConv]
  cases hp : parseNumeric (if pctStr c = "nan" then "" else pctStr c) with
  | none => exact ⟨0, rfl, by decide⟩
  | some q =>
    refine ⟨q, rfl, ?_⟩
    rw [parseNumeric] at hp
    obtain ⟨d, hd, htr⟩ := Option.map_eq_some'.mp hp
    subst htr
    exact den_dvd_ten_pow_den _ d.k (decNum_toRat_den_dvd d)

theorem pctConv_idem (c : Cell) : pctConv (pctConv c) = pctConv c := by
  obtain ⟨q, hq, h⟩ := pctConv_output c
  rw [hq, pctConv_num_fix q h]

theorem numConv_eq (c : Cell) : numConv c = Cell.num ((toNumeric c).getD 0) := by
  rw [numConv]
  cases toNumeric c <;> rfl

theorem numConv_idem (c : Cell) : numConv (numConv c) = numConv c := by
  rw [numConv_eq c]
  rfl

theorem dateConv_idem (c : Cell) : dateConv (dateConv c) = dateConv c := by
  cases h : parseDate c with
  | none =>
    have h1 : dateConv c = Cell.natT := by rw [dateConv, h]
    rw [h1]
    rfl
  | some t =>
    obtain ⟨y, md⟩ := t
    obtain ⟨m, d⟩ := md
    have h1 : dateConv c = Cell.date y m d := by rw [dateConv, h]
    rw [h1]
    rfl

theorem dateConv_shape (c : Cell) :
    (∃ y m d, dateConv c = Cell.date y m d) ∨ dateConv c = Cell.natT := by
  cases h : parseDate c with
  | none => exact Or.inr (by rw [dateConv, h])
  | some t =>
    obtain ⟨y, md⟩ := t
    obtain ⟨m, d⟩ := md
    exact Or.inl ⟨y, m, d, by rw [dateConv, h]⟩

theorem convertCell_idem (col : String) (c : Cell) :
    convertCell col (convertCell col c) = convertCell col c := by
  rw [convertCell, convertCell]
  split_ifs with h1 h2 h3
  · exact dateConv_idem c
  · exact numConv_idem c
  · exact pctConv_idem c
  · rfl

/-! ### Cell lookup lemmas -/

theorem getCell_cons (c0 c : String) (cols : List String) (x : Cell) (xs : List Cell) :
    getCell (c0 :: cols) (x :: xs) c = if c0 = c then x else getCell cols xs c := rfl

theorem getCell_not_mem (cols : List String) (r : List Cell) (c : String)
    (h : c ∉ cols) : getCell cols r c = Cell.null := by
  induction cols generalizing r with
  | nil => cases r <;> rfl
  | cons c0 cols ih =>
    cases r with
    | nil => rfl
    | cons x xs =>
      rw [getCell_cons, if_neg (fun he => h (List.mem_cons.mpr (Or.inl he.symm)))]
      exact ih xs (fun hm => h (List.mem_cons_of_mem c0 hm))

theorem getCell_zipWith (f : String → Cell → Cell) (cols : List String) (r : List Cell)
    (c : String) (hlen : r.length = cols.length) :
    getCell cols (List.zipWith f cols r) c =
      if c ∈ cols then f c (getCell cols r c) else Cell.null := by
  induction cols generalizing r with
  | nil =>
    rw [if_neg (List.not_mem_nil c)]
    rfl
  | cons c0 cols ih =>
    cases r with
    | nil => simp at hlen
    | cons x xs =>
      have hlen2 : xs.length = cols.length := by simpa using hlen
      rw [List.zipWith_cons_cons, getCell_cons, getCell_cons]
      by_cases he : c0 = c
      · subst he
        simp
      · rw [if_neg he, if_neg he, ih xs hlen2]
        by_cases hm : c ∈ cols
        · rw [if_pos hm, if_pos (List.mem_cons_of_mem c0 hm)]
        · rw [if_neg hm, if_neg (fun hmm => by
            rcases List.mem_cons.mp hmm with h1 | h1
            · exact he h1.symm
            · exact hm h1)]

theorem getCell_append (cols1 : List String) (r1 : List Cell) (cols2 : List String)
    (r2 : List Cell) (c : String) (hlen : r1.length = cols1.length) :
    getCell (cols1 ++ cols2) (r1 ++ r2) c =
      if c ∈ cols1 then getCell cols1 r1 c else getCell cols2 r2 c := by
  induction cols1 generalizing r1 with
  | nil =>
    cases r1 with
    | nil => rw [if_neg (List.not_mem_nil c)]; rfl
    | cons x xs => simp at hlen
  | cons c0 cols ih =>
    cases r1 with
    | nil => simp at hlen
    | cons x xs =>
      have hlen2 : xs.length = cols.length := by simpa using hlen
      rw [List.cons_append, List.cons_append, getCell_cons, getCell_cons]
      by_cases he : c0 = c
      · subst he
        simp
      · rw [if_neg he, if_neg he, ih xs hlen2]
        by_cases hm : c ∈ cols
        · rw [if_pos hm, if_pos (List.mem_cons_of_mem c0 hm)]
        · rw [if_neg hm, if_neg (fun hmm => by
            rcases List.mem_cons.mp hmm with h1 | h1
            · exact he h1.symm
            · exact hm h1)]

theorem getCell_replicate (cols : List String) (n : Nat) (c : String) :
    getCell cols (List.replicate n Cell.null) c = Cell.null := by
  induction cols generalizing n with
  | nil => cases n <;> rfl
  | cons c0 cols ih =>
    cases n with
    | zero => rfl
    | succ n =>
      rw [List.replicate_succ, getCell_cons]
      by_cases he : c0 = c
      · rw [if_pos he]
      · rw [if_neg he, ih n]

theorem getCell_map_self (cs : List String) (g : String → Cell) (c : String) (h : c ∈ cs) :
    getCell cs (cs.map g) c = g c := by
  induction cs with
  | nil => exact absurd h (List.not_mem_nil c)
  | cons c0 cs ih =>
    rw [List.map_cons, getCell_cons]
    by_cases he : c0 = c
    · rw [if_pos he, he]
    · rw [if_neg he]
      refine ih ?_
      rcases List.mem_cons.mp h with h1 | h1
      · exact absurd h1.symm he
      · exact h1

/-! ### Characterizing the normalizer -/

theorem DF_ext (a b : DF) (h1 : a.cols = b.cols) (h2 : a.rows = b.rows) : a = b := by
  cases a
  cases b
  simp_all

theorem mem_missingCols (cols : List String) (c : String) :
    c ∈ missingCols cols ↔ c ∈ REQUIRED_COLUMNS ∧ c ∉ cols := by
  rw [missingCols, List.mem_filter]
  simp

theorem clean_and_normalize_cols (T : DF) :
    (clean_and_normalize T).cols = REQUIRED_COLUMNS := rfl

theorem clean_and_normalize_rows (T : DF) (hT : Rect T) :
    (clean_and_normalize T).rows = T.rows.map (normRow T.cols) := by
  show ((T.rows.map (fun r => r ++ List.replicate (missingCols T.cols).length Cell.null)).map
      (fun r => List.zipWith convertCell (T.cols ++ missingCols T.cols) r)).map
      (fun r => REQUIRED_COLUMNS.map (fun c => getCell (T.cols ++ missingCols T.cols) r c))
    = T.rows.map (normRow T.cols)
  rw [List.map_map, List.map_map]
  apply List.map_congr_left
  intro r hr
  show REQUIRED_COLUMNS.map (fun c => getCell (T.cols ++ missingCols T.cols)
      (List.zipWith convertCell (T.cols ++ missingCols T.cols)
        (r ++ List.replicate (missingCols T.cols).length Cell.null)) c)
    = normRow T.cols r
  rw [normRow]
  apply List.map_congr_left
  intro c hc
  have hlen : (r ++ List.replicate (missingCols T.cols).length Cell.null).length
      = (T.cols ++ missingCols T.cols).length := by
    simp [hT r hr]
  rw [getCell_zipWith convertCell _ _ c hlen]
  have hmem : c ∈ T.cols ++ missingCols T.cols := by
    rcases Decidable.em (c ∈ T.cols) with h1 | h1
    · exact List.mem_append.mpr (Or.inl h1)
    · exact List.mem_append.mpr (Or.inr ((mem_missingCols T.cols c).mpr ⟨hc, h1⟩))
  rw [if_pos hmem]
  congr 1
  rw [getCell_append _ _ _ _ c (hT r hr)]
  by_cases h1 : c ∈ T.cols
  · rw [if_pos h1]
  · rw [if_neg h1, getCell_replicate, getCell_not_mem _ _ _ h1]

theorem normRow_length (cols : List String) (r : List Cell) :
    (normRow cols r).length = REQUIRED_COLUMNS.length := by
  rw [normRow, List.length_map]

theorem clean_and_normalize_row_length (T : DF) :
    ∀ r ∈ (clean_and_normalize T).rows, r.length = REQUIRED_COLUMNS.length := by
  intro r hr
  rw [clean_and_normalize, selectCols] at hr
  simp only [List.mem_map] at hr
  obtain ⟨r0, hr0, he⟩ := hr
  rw [← he, List.length_map]

theorem rect_clean_and_normalize (T : DF) : Rect (clean_and_normalize T) :=
  fun r hr => clean_and_normalize_row_length T r hr

theorem normRow_normRow (cols : List String) (r : List Cell) :
    normRow REQUIRED_COLUMNS (normRow cols r) = normRow cols r := by
  simp only [normRow]
  apply List.map_congr_left
  intro c hc
  rw [getCell_map_self _ _ c hc, convertCell_idem]

/-! ### Duplicate removal -/

theorem mem_keepLast {α : Type} [DecidableEq α] (l : List α) (a : α) :
    a ∈ keepLast l ↔ a ∈ l := by
  induction l with
  | nil => simp [keepLast]
  | cons x xs ih =>
    simp only [keepLast]
    by_cases hx : x ∈ xs
    · rw [if_pos hx, ih]
      constructor
      · exact fun h => List.mem_cons_of_mem x h
      · intro h
        rcases List.mem_cons.mp h with h1 | h1
        · rw [h1]; exact hx
        · exact h1
    · rw [if_neg hx]
      simp [ih]

theorem keepLast_nodup {α : Type} [DecidableEq α] (l : List α) : (keepLast l).Nodup := by
  induction l with
  | nil => exact List.nodup_nil
  | cons x xs ih =>
    simp only [keepLast]
    by_cases hx : x ∈ xs
    · rw [if_pos hx]; exact ih
    · rw [if_neg hx]
      exact List.nodup_cons.mpr ⟨fun h => hx ((mem_keepLast xs x).mp h), ih⟩

theorem keepLast_sublist {α : Type} [DecidableEq α] (l : List α) : (keepLast l).Sublist l := by
  induction l with
  | nil => exact List.Sublist.refl []
  | cons x xs ih =>
    simp only [keepLast]
    by_cases hx : x ∈ xs
    · rw [if_pos hx]; exact ih.cons x
    · rw [if_neg hx]; exact ih.cons₂ x

/-- The predicate with which the master-side rows surviving the dedupe
are characterized: the row does not reappear among the new rows. -/
def notInRows (rows : List (List Cell)) (r : List Cell) : Bool := decide (r ∉ rows)

theorem keepLast_append_rows (m n : List (List Cell)) :
    keepLast (m ++ n) = (keepLast m).filter (notInRows n) ++ keepLast n := by
  induction m with
  | nil => simp [keepLast]
  | cons x xs ih =>
    rw [List.cons_append]
    simp only [keepLast]
    by_cases h1 : x ∈ xs
    · rw [if_pos (List.mem_append.mpr (Or.inl h1)), if_pos h1, ih]
    · by_cases h2 : x ∈ n
      · rw [if_pos (List.mem_append.mpr (Or.inr h2)), if_neg h1, ih, List.filter_cons]
        have hx : notInRows n x = false := by simp [notInRows, h2]
        rw [hx]
        simp
      · rw [if_neg (fun hm => by
            rcases List.mem_append.mp hm with h | h
            · exact h1 h
            · exact h2 h),
          if_neg h1, ih, List.filter_cons]
        have hx : notInRows n x = true := by simp [notInRows, h2]
        rw [hx]
        simp

/-! ### Column-dispatch helpers -/

theorem convertCell_date (x : Cell) : convertCell "Date" x = dateConv x := by
  rw [convertCell, if_pos rfl]

theorem date_mem_required : "Date" ∈ REQUIRED_COLUMNS := by decide

theorem numeric_cols_subset : ∀ c ∈ numeric_cols, c ∈ REQUIRED_COLUMNS := by decide

theorem pct_cols_subset : ∀ c ∈ pct_cols, c ∈ REQUIRED_COLUMNS := by decide

theorem convertCell_numeric (c : String) (hc : c ∈ numeric_cols) (x : Cell) :
    convertCell c x = numConv x := by
  fin_cases hc <;> rfl

theorem convertCell_pct (c : String) (hc : c ∈ pct_cols) (x : Cell) :
    convertCell c x = pctConv x := by
  fin_cases hc <;> rfl

theorem convertCell_other (c : String) (hc : c ∉ REQUIRED_COLUMNS) (x : Cell) :
    convertCell c x = x := by
  rw [convertCell, if_neg (fun he => hc (by rw [he]; exact date_mem_required)),
    if_neg (fun he => hc (numeric_cols_subset c he)),
    if_neg (fun he => hc (pct_cols_subset c he))]

theorem numConv_output (c : Cell) : ∃ q, numConv c = Cell.num q := by
  rw [numConv_eq]
  exact ⟨_, rfl⟩

theorem clean_and_normalize_mut_rows (T : DF) :
    (clean_and_normalize_mut T).rows = T.rows.map (mutRow T.cols) := by
  show ((T.rows.map (fun r => r ++ List.replicate (missingCols T.cols).length Cell.null)).map
      (fun r => List.zipWith convertCell (T.cols ++ missingCols T.cols) r))
    = T.rows.map (mutRow T.cols)
  rw [List.map_map]
  rfl

theorem getCell_mutRow (T : DF) (hT : Rect T) (r : List Cell) (hr : r ∈ T.rows) (c : String) :
    getCell (T.cols ++ missingCols T.cols) (mutRow T.cols r) c
      = convertCell c (getCell T.cols r c) := by
  have hlen : (r ++ List.replicate (missingCols T.cols).length Cell.null).length
      = (T.cols ++ missingCols T.cols).length := by
    simp [hT r hr]
  rw [mutRow, getCell_zipWith convertCell _ _ c hlen]
  by_cases hm : c ∈ T.cols ++ missingCols T.cols
  · rw [if_pos hm, getCell_append _ _ _ _ c (hT r hr)]
    by_cases h1 : c ∈ T.cols
    · rw [if_pos h1]
    · rw [if_neg h1, getCell_replicate, getCell_not_mem _ _ _ h1]
  · rw [if_neg hm]
    have h1 : c ∉ T.cols := fun h => hm (List.mem_append.mpr (Or.inl h))
    have h2 : c ∉ REQUIRED_COLUMNS := fun hc =>
      hm (List.mem_append.mpr (Or.inr ((mem_missingCols T.cols c).mpr ⟨hc, h1⟩)))
    rw [getCell_not_mem _ _ _ h1, convertCell_other c h2]

/-! ### The claims -/

/-- Claim C2: normalizing an already-normalized table changes nothing:
for every rectangular input table, `clean_and_normalize` is idempotent. -/
theorem clean_and_normalize_idempotent (T : DF) (hT : Rect T) :
    clean_and_normalize (clean_and_normalize T) = clean_and_normalize T := by
  apply DF_ext
  · rfl
  · rw [clean_and_normalize_rows (clean_and_normalize T) (rect_clean_and_normalize T),
      clean_and_normalize_cols, clean_and_normalize_rows T hT, List.map_map]
    apply List.map_congr_left
    intro r hr
    exact normRow_normRow T.cols r

/-- Witness for C2 at a concrete rectangular table. -/
theorem clean_and_normalize_idempotent_witness :
    Rect ⟨["Employee Name"], [[Cell.str "A"]]⟩
    ∧ clean_and_normalize (clean_and_normalize ⟨["Employee Name"], [[Cell.str "A"]]⟩)
        = clean_and_normalize ⟨["Employee Name"], [[Cell.str "A"]]⟩ :=
  ⟨by decide, clean_and_normalize_idempotent ⟨["Employee Name"], [[Cell.str "A"]]⟩ (by decide)⟩

/-- Claim C3: the normalized table has exactly the schema's columns, in
schema order, whatever the input columns were; every row has one cell per
schema column; and a schema column absent from the input yields the
type-appropriate normalization of a null cell in every row. -/
theorem normalize_schema_columns (T : DF) (hT : Rect T) :
    (clean_and_normalize T).cols = REQUIRED_COLUMNS
    ∧ (∀ r ∈ (clean_and_normalize T).rows, r.length = REQUIRED_COLUMNS.length)
    ∧ (∀ c ∈ REQUIRED_COLUMNS, c ∉ T.cols →
        ∀ r ∈ (clean_and_normalize T).rows,
          getCell REQUIRED_COLUMNS r c = convertCell c Cell.null) := by
  refine ⟨rfl, clean_and_normalize_row_length T, ?_⟩
  intro c hc hnot r hr
  rw [clean_and_normalize_rows T hT] at hr
  obtain ⟨r0, hr0, he⟩ := List.mem_map.mp hr
  rw [← he, normRow, getCell_map_self _ _ c hc, getCell_not_mem _ _ _ hnot]

/-- Witness for C3 at a concrete rectangular table. -/
theorem normalize_schema_columns_witness :
    Rect ⟨["Overall Calls"], [[Cell.str "7"]]⟩
    ∧ (clean_and_normalize ⟨["Overall Calls"], [[Cell.str "7"]]⟩).cols = REQUIRED_COLUMNS :=
  ⟨by decide, (normalize_schema_columns ⟨["Overall Calls"], [[Cell.str "7"]]⟩ (by decide)).1⟩

/-- Claim C4 (amended): the numeric coercion with zero fallback applies to
the ten columns of the source's numeric_cols list (Overall Calls,
Completed Calls, Missed Calls, Login Hours, Cons Count, Audit Count,
Fatal Count, Total Points, Achieve Points, Productivity%): their cells
are always numeric after normalization and unparseable cells (including
null) become 0.  The schema's Incoming Calls, Incoming completed call and
Outbound Calls columns are NOT in that list and are left unconverted. -/
theorem numeric_columns_coerced (T : DF) (hT : Rect T) :
    (clean_and_normalize T).rows = T.rows.map (normRow T.cols)
    ∧ (∀ c ∈ numeric_cols, ∀ r ∈ T.rows,
        getCell REQUIRED_COLUMNS (normRow T.cols r) c = numConv (getCell T.cols r c)
        ∧ (∃ q, getCell REQUIRED_COLUMNS (normRow T.cols r) c = Cell.num q)
        ∧ (toNumeric (getCell T.cols r c) = none →
            getCell REQUIRED_COLUMNS (normRow T.cols r) c = Cell.num 0)) := by
  refine ⟨clean_and_normalize_rows T hT, ?_⟩
  intro c hc r hr
  have h1 : getCell REQUIRED_COLUMNS (normRow T.cols r) c = numConv (getCell T.cols r c) := by
    rw [normRow, getCell_map_self _ _ c (numeric_cols_subset c hc), convertCell_numeric c hc]
  refine ⟨h1, ?_, ?_⟩
  · rw [h1]
    exact numConv_output _
  · intro hn
    rw [h1, numConv, hn]

/-- Witness for C4 (amended) at a concrete rectangular table. -/
theorem numeric_columns_coerced_witness :
    Rect ⟨["Overall Calls"], [[Cell.str "N/A"]]⟩
    ∧ (clean_and_normalize ⟨["Overall Calls"], [[Cell.str "N/A"]]⟩).rows
        = [[Cell.str "N/A"]].map (normRow ["Overall Calls"]) :=
  ⟨by decide, (numeric_columns_coerced ⟨["Overall Calls"], [[Cell.str "N/A"]]⟩ (by decide)).1⟩

/-- Claim C4 counterexample: the source's numeric_cols list omits the
Incoming Calls column (and the other two incoming/outbound counts), so an
unparseable cell there survives normalization as the string it was,
instead of being coerced to the number 0 as the claim states. -/
theorem numeric_columns_counterexample :
    getCell REQUIRED_COLUMNS
      ((clean_and_normalize ⟨["Incoming Calls"], [[Cell.str "N/A"]]⟩).rows.getD 0 [])
      "Incoming Calls" = Cell.str "N/A"
    ∧ Cell.str "N/A" ≠ Cell.num 0 :=
  ⟨by decide, by decide⟩

/-- Claim C6 (amended): a percentage cell is rendered by astype(str),
EVERY percent sign is removed (str.replace, not only a trailing one), the
string "nan" is treated as missing, and the result is numerically coerced
with 0 as the fallback; in particular "85%" becomes the number 85 and
"nan" and "" become 0, and every percentage cell of a normalized table is
numeric. -/
theorem pct_columns_normalized (T : DF) (hT : Rect T) :
    ((clean_and_normalize T).rows = T.rows.map (normRow T.cols)
    ∧ (∀ c ∈ pct_cols, ∀ r ∈ T.rows,
        getCell REQUIRED_COLUMNS (normRow T.cols r) c = pctConv (getCell T.cols r c)
        ∧ ∃ q, getCell REQUIRED_COLUMNS (normRow T.cols r) c = Cell.num q))
    ∧ pctConv (Cell.str "85%") = Cell.num 85
    ∧ pctConv (Cell.str "nan") = Cell.num 0
    ∧ pctConv (Cell.str "") = Cell.num 0 := by
  refine ⟨⟨clean_and_normalize_rows T hT, ?_⟩, by decide, by decide, by decide⟩
  intro c hc r hr
  have h1 : getCell REQUIRED_COLUMNS (normRow T.cols r) c = pctConv (getCell T.cols r c) := by
    rw [normRow, getCell_map_self _ _ c (pct_cols_subset c hc), convertCell_pct c hc]
  refine ⟨h1, ?_⟩
  rw [h1]
  obtain ⟨q, hq, hden⟩ := pctConv_output (getCell T.cols r c)
  exact ⟨q, hq⟩

/-- Witness for C6 (amended) at a concrete rectangular table. -/
theorem pct_columns_normalized_witness :
    Rect ⟨["Completed %"], [[Cell.str "85%"]]⟩
    ∧ pctConv (Cell.str "85%") = Cell.num 85 :=
  ⟨by decide, (pct_columns_normalized ⟨["Completed %"], [[Cell.str "85%"]]⟩ (by decide)).2.1⟩

/-- Claim C6 counterexample: on the cell "%85" the source removes every
percent sign and obtains the number 85, whereas stripping only a trailing
percent sign (as the claim describes) leaves an unparseable string that
falls back to 0; so the claim's description of the transformation is
wrong, not just incomplete. -/
theorem pct_trailing_counterexample :
    getCell REQUIRED_COLUMNS
      ((clean_and_normalize ⟨["Completed %"], [[Cell.str "%85"]]⟩).rows.getD 0 [])
      "Completed %" = Cell.num 85
    ∧ specTrailingPctConv (Cell.str "%85") = Cell.num 0
    ∧ Cell.num 85 ≠ Cell.num 0 :=
  ⟨by decide, by decide, by decide⟩

/-- Claim C8: the Date column of a normalized table holds only pure dates
or the null date marker NaT; the conversion is a total function (no cell
value can make it raise) and every unparseable date cell becomes NaT. -/
theorem date_column_safe (T : DF) (hT : Rect T) :
    (clean_and_normalize T).rows = T.rows.map (normRow T.cols)
    ∧ (∀ r ∈ T.rows,
        getCell REQUIRED_COLUMNS (normRow T.cols r) "Date"
          = dateConv (getCell T.cols r "Date")
        ∧ (parseDate (getCell T.cols r "Date") = none →
            getCell REQUIRED_COLUMNS (normRow T.cols r) "Date" = Cell.natT))
    ∧ (∀ r ∈ (clean_and_normalize T).rows,
        (∃ y mo dy, getCell REQUIRED_COLUMNS r "Date" = Cell.date y mo dy)
        ∨ getCell REQUIRED_COLUMNS r "Date" = Cell.natT) := by
  have hchar := clean_and_normalize_rows T hT
  refine ⟨hchar, ?_, ?_⟩
  · intro r hr
    have h1 : getCell REQUIRED_COLUMNS (normRow T.cols r) "Date"
        = dateConv (getCell T.cols r "Date") := by
      rw [normRow, getCell_map_self _ _ _ date_mem_required, convertCell_date]
    refine ⟨h1, fun hn => ?_⟩
    rw [h1, dateConv, hn]
  · intro r hr
    rw [hchar] at hr
    obtain ⟨r0, hr0, he⟩ := List.mem_map.mp hr
    rw [← he, normRow, getCell_map_self _ _ _ date_mem_required, convertCell_date]
    exact dateConv_shape _

/-- Witness for C8 at a concrete table with an unparseable date cell. -/
theorem date_column_safe_witness :
    Rect ⟨["Date"], [[Cell.str "not a date"]]⟩
    ∧ (clean_and_normalize ⟨["Date"], [[Cell.str "not a date"]]⟩).rows
        = [[Cell.str "not a date"]].map (normRow ["Date"]) :=
  ⟨by decide, (date_column_safe ⟨["Date"], [[Cell.str "not a date"]]⟩ (by decide)).1⟩

/-- Claim C1 (amended): for a NON-empty persisted master table (when the
master is empty the source skips duplicate removal — see C10), append
normalizes the new table, concatenates master rows first and new rows
after, and drops duplicate rows keeping the last occurrence: the result
is the deduplicated master rows that do not reappear among the normalized
new rows, followed by the deduplicated new rows (so a newly appended row
wins a tie against a pre-existing identical row); a row is in the result
iff it is in the master or among the normalized new rows; no row of the
result appears twice; and the result preserves the insertion order of the
concatenation. -/
theorem append_to_master_nonempty (master : List (List Cell)) (newDf : DF)
    (h : master ≠ []) :
    append_to_master master newDf =
      (keepLast master).filter (notInRows (clean_and_normalize newDf).rows)
      ++ keepLast (clean_and_normalize newDf).rows
    ∧ (∀ r, r ∈ append_to_master master newDf ↔
        r ∈ master ∨ r ∈ (clean_and_normalize newDf).rows)
    ∧ (append_to_master master newDf).Nodup
    ∧ (append_to_master master newDf).Sublist
        (master ++ (clean_and_normalize newDf).rows) := by
  have he : append_to_master master newDf
      = keepLast (master ++ (clean_and_normalize newDf).rows) := by
    rw [append_to_master, if_neg h]
  refine ⟨?_, ?_, ?_, ?_⟩
  · rw [he, keepLast_append_rows]
  · intro r
    rw [he, mem_keepLast, List.mem_append]
  · rw [he]
    exact keepLast_nodup _
  · rw [he]
    exact keepLast_sublist _

/-- Witness for C1 (amended) at a concrete non-empty master. -/
theorem append_to_master_nonempty_witness :
    ([List.replicate 17 Cell.null] : List (List Cell)) ≠ []
    ∧ (∀ r, r ∈ append_to_master [List.replicate 17 Cell.null] ⟨REQUIRED_COLUMNS, []⟩ ↔
        r ∈ [List.replicate 17 Cell.null]
        ∨ r ∈ (clean_and_normalize ⟨REQUIRED_COLUMNS, []⟩).rows) :=
  ⟨by decide,
    (append_to_master_nonempty [List.replicate 17 Cell.null]
      ⟨REQUIRED_COLUMNS, []⟩ (by decide)).2.1⟩

/-- Claim C1 counterexample: with an EMPTY persisted master, append skips
duplicate removal entirely, so appending a table whose normalization
contains the same row twice leaves that row twice in the store — the
claim's unconditional "removes duplicate rows" is false for an empty
master. -/
theorem append_dedupe_counterexample :
    (append_to_master []
        ⟨REQUIRED_COLUMNS,
          [List.replicate 17 Cell.null, List.replicate 17 Cell.null]⟩).count
      (normRow REQUIRED_COLUMNS (List.replicate 17 Cell.null)) = 2 := by
  decide

/-- Claim C10: when the persisted master table is empty, append returns
(and persists) exactly the normalized new table with no duplicate
removal: a single appended table that normalizes to two identical rows
leaves both rows in the store. -/
theorem append_empty_master_no_dedupe :
    (∀ newDf : DF, append_to_master [] newDf = (clean_and_normalize newDf).rows)
    ∧ (append_to_master []
        ⟨REQUIRED_COLUMNS,
          [List.replicate 17 Cell.null, List.replicate 17 Cell.null]⟩).length = 2
    ∧ (append_to_master []
        ⟨REQUIRED_COLUMNS,
          [List.replicate 17 Cell.null, List.replicate 17 Cell.null]⟩).count
        (normRow REQUIRED_COLUMNS (List.replicate 17 Cell.null)) = 2 := by
  refine ⟨fun newDf => by rw [append_to_master, if_pos rfl], by decide, by decide⟩

/-- Claim C5 counterexample: read_master returns the stored table exactly
as parsed, applying no normalization, so a stored table that is not in
canonical form is returned as it is — not as a canonical table. -/
theorem read_master_counterexample :
    read_master (MasterFile.stored ⟨["Foo"], [[Cell.num 1]]⟩)
        ≠ clean_and_normalize ⟨["Foo"], [[Cell.num 1]]⟩
    ∧ (read_master (MasterFile.stored ⟨["Foo"], [[Cell.num 1]]⟩)).cols ≠ REQUIRED_COLUMNS :=
  ⟨by decide, by decide⟩

/-- Claim C5 (amended): read_master returns the persisted data exactly as
parsed, without normalizing it (callers that need a canonical table
re-normalize separately), and returns the empty canonical table — without
raising — when the file is absent or cannot be parsed. -/
theorem read_master_spec :
    read_master MasterFile.absent = empty_master
    ∧ read_master MasterFile.unreadable = empty_master
    ∧ empty_master.cols = REQUIRED_COLUMNS
    ∧ empty_master.rows = []
    ∧ ∀ df : DF, read_master (MasterFile.stored df) = df :=
  ⟨rfl, rfl, rfl, rfl, fun _ => rfl⟩

/-- Claim C7 counterexample: clean_and_normalize mutates the frame passed
to it — afterwards the argument has every missing schema column appended
and its Date cell converted in place — so the input table is changed and
the function is not pure. -/
theorem normalize_purity_counterexample :
    clean_and_normalize_mut ⟨["Date"], [[Cell.str "junk"]]⟩
      ≠ (⟨["Date"], [[Cell.str "junk"]]⟩ : DF) := by
  decide

/-- Claim C7 (amended): clean_and_normalize mutates its input in place:
after the call the argument holds its original columns followed by the
inserted missing schema columns, with every cell converted according to
its column's type (cells under non-schema columns are unchanged), and the
returned table is the schema-column selection of that mutated frame. -/
theorem normalize_mutates_input (T : DF) (hT : Rect T) :
    (clean_and_normalize_mut T).cols = T.cols ++ missingCols T.cols
    ∧ (clean_and_normalize_mut T).rows = T.rows.map (mutRow T.cols)
    ∧ clean_and_normalize T = selectCols (clean_and_normalize_mut T) REQUIRED_COLUMNS
    ∧ (∀ r ∈ T.rows, ∀ c : String,
        getCell (T.cols ++ missingCols T.cols) (mutRow T.cols r) c
          = convertCell c (getCell T.cols r c)) :=
  ⟨rfl, clean_and_normalize_mut_rows T, rfl, fun r hr c => getCell_mutRow T hT r hr c⟩

/-- Witness for C7 (amended) at a concrete rectangular table. -/
theorem normalize_mutates_input_witness :
    Rect ⟨["Date"], [[Cell.str "2024-01-05"]]⟩
    ∧ (clean_and_normalize_mut ⟨["Date"], [[Cell.str "2024-01-05"]]⟩).cols
        = ["Date"] ++ missingCols ["Date"] :=
  ⟨by decide, (normalize_mutates_input ⟨["Date"], [[Cell.str "2024-01-05"]]⟩ (by decide)).1⟩

/-- Claim C9: the manual-entry update overwrites the Cons Count, Audit
Count and Fatal Count cells of exactly the rows whose Employee Name and
Date both equal the selection, and changes nothing else: the columns and
the number of rows are unchanged, rows that do not match are kept
exactly as they were, and a matching row keeps every cell outside the
three counter columns while its three counters become the new values. -/
theorem manual_update_frame (master : DF) (hM : Rect master)
    (hcols : master.cols = REQUIRED_COLUMNS)
    (emp : String) (y m d cons audit fatal : Nat) :
    (manual_update master emp y m d cons audit fatal).cols = master.cols
    ∧ (manual_update master emp y m d cons audit fatal).rows
        = master.rows.map (fun r =>
            if maskRow master.cols emp y m d r
            then setCounts master.cols cons audit fatal r else r)
    ∧ (∀ r ∈ master.rows, maskRow master.cols emp y m d r = false →
        (if maskRow master.cols emp y m d r
         then setCounts master.cols cons audit fatal r else r) = r)
    ∧ (∀ r ∈ master.rows,
        getCell master.cols (setCounts master.cols cons audit fatal r) "Cons Count"
          = Cell.num (cons : Rat)
        ∧ getCell master.cols (setCounts master.cols cons audit fatal r) "Audit Count"
          = Cell.num (audit : Rat)
        ∧ getCell master.cols (setCounts master.cols cons audit fatal r) "Fatal Count"
          = Cell.num (fatal : Rat)
        ∧ ∀ c : String, c ≠ "Cons Count" → c ≠ "Audit Count" → c ≠ "Fatal Count" →
            getCell master.cols (setCounts master.cols cons audit fatal r) c
              = getCell master.cols r c) := by
  refine ⟨rfl, rfl, ?_, ?_⟩
  · intro r hr hm
    simp [hm]
  · intro r hr
    have hlen : r.length = master.cols.length := hM r hr
    have hget : ∀ c : String,
        getCell master.cols (setCounts master.cols cons audit fatal r) c
          = if c ∈ master.cols
            then (if c = "Cons Count" then Cell.num (cons : Rat)
              else if c = "Audit Count" then Cell.num (audit : Rat)
              else if c = "Fatal Count" then Cell.num (fatal : Rat)
              else getCell master.cols r c)
            else Cell.null := by
      intro c
      rw [setCounts, getCell_zipWith _ _ _ c hlen]
    refine ⟨?_, ?_, ?_, ?_⟩
    · rw [hget "Cons Count", if_pos (by rw [hcols]; decide), if_pos rfl]
    · rw [hget "Audit Count", if_pos (by rw [hcols]; decide),
        if_neg (by decide), if_pos rfl]
    · rw [hget "Fatal Count", if_pos (by rw [hcols]; decide),
        if_neg (by decide), if_neg (by decide), if_pos rfl]
    · intro c hc1 hc2 hc3
      rw [hget c]
      by_cases hmem : c ∈ master.cols
      · rw [if_pos hmem, if_neg hc1, if_neg hc2, if_neg hc3]
      · rw [if_neg hmem, getCell_not_mem _ _ _ hmem]

/-- Witness for C9 at a concrete one-row canonical master. -/
theorem manual_update_frame_witness :
    Rect ⟨REQUIRED_COLUMNS,
      [[Cell.date 2024 1 5, Cell.str "A", Cell.num 10, Cell.num 8, Cell.num 80,
        Cell.num 5, Cell.num 4, Cell.num 75, Cell.num 2, Cell.num 1, Cell.num 9,
        Cell.num 0, Cell.num 0, Cell.num 0, Cell.num 100, Cell.num 90, Cell.num 88]]⟩
    ∧ (⟨REQUIRED_COLUMNS,
        [[Cell.date 2024 1 5, Cell.str "A", Cell.num 10, Cell.num 8, Cell.num 80,
          Cell.num 5, Cell.num 4, Cell.num 75, Cell.num 2, Cell.num 1, Cell.num 9,
          Cell.num 0, Cell.num 0, Cell.num 0, Cell.num 100, Cell.num 90, Cell.num 88]]⟩
        : DF).cols = REQUIRED_COLUMNS
    ∧ (manual_update ⟨REQUIRED_COLUMNS,
        [[Cell.date 2024 1 5, Cell.str "A", Cell.num 10, Cell.num 8, Cell.num 80,
          Cell.num 5, Cell.num 4, Cell.num 75, Cell.num 2, Cell.num 1, Cell.num 9,
          Cell.num 0, Cell.num 0, Cell.num 0, Cell.num 100, Cell.num 90, Cell.num 88]]⟩
        "A" 2024 1 5 1 2 3).cols
      = (⟨REQUIRED_COLUMNS,
          [[Cell.date 2024 1 5, Cell.str "A", Cell.num 10, Cell.num 8, Cell.num 80,
            Cell.num 5, Cell.num 4, Cell.num 75, Cell.num 2, Cell.num 1, Cell.num 9,
            Cell.num 0, Cell.num 0, Cell.num 0, Cell.num 100, Cell.num 90, Cell.num 88]]⟩
          : DF).cols :=
  ⟨by decide, by decide,
    (manual_update_frame ⟨REQUIRED_COLUMNS,
      [[Cell.date 2024 1 5, Cell.str "A", Cell.num 10, Cell.num 8, Cell.num 80,
        Cell.num 5, Cell.num 4, Cell.num 75, Cell.num 2, Cell.num 1, Cell.num 9,
        Cell.num 0, Cell.num 0, Cell.num 0, Cell.num 100, Cell.num 90, Cell.num 88]]⟩
      (by decide) (by decide) "A" 2024 1 5 1 2 3).1⟩

end CallDashboard
